import Mathlib

unseal Rat.add Rat.mul Rat.inv Rat.sub

/-!
Verification development for the smart-data-cleaner repository
(`datacleaning-app/app.py`).

The app's core is a pandas cleaning pipeline over an uploaded table:
header trimming, duplicate-row removal, blank-to-missing normalization,
per-column numeric coercion and imputation, IQR outlier clipping, and
dead-column pruning, plus a before/after completeness score, wrapped in
a straight-line session that also makes two remote narrative calls.

We embed the table operations shallowly: a cell is a number (modelled by
`ℚ`), a text string, or the missing marker (pandas `NaN`); a table is a
list of named columns.  Each definition below is translated from the
corresponding line of `app.py`, noted in its comment.
-/

/-- A cell of the table: a number, a text value, or the missing marker
(pandas `NaN`).  This is the data model of the spec (§3) at the
granularity the cleaning code observes. -/
inductive Cell where
  | num (q : ℚ)
  | str (s : String)
  | na
  deriving DecidableEq, Repr

/-- A table: a list of column names together with the column contents,
column-major.  Rows are recovered by transposing the columns. -/
structure Table where
  headers : List String
  cols : List (List Cell)
  deriving DecidableEq, Repr

/-- A row of the table, as compared by `drop_duplicates`. -/
abbrev Row := List Cell

/-- The non-missing cells of a column (pandas operations such as
`median`, `mode` and `quantile` skip `NaN`). -/
def nonNACells (c : List Cell) : List Cell :=
  c.filter fun x => x != Cell.na

/-- The numeric values of a column, skipping `NaN`. -/
def numVals (c : List Cell) : List ℚ :=
  c.filterMap fun x => match x with
    | Cell.num q => some q
    | _ => none

/-! ### Stage 2: `df.drop_duplicates()` (app.py line 82) -/

/-- Worker for `drop_duplicates`: drop a row when it equals an
already-seen row (pandas treats `NaN` as equal to `NaN` here, which our
`Cell.na = Cell.na` matches), otherwise keep it and record it. -/
def dropDupAux (seen : List Row) : List Row → List Row
  | [] => []
  | r :: rs => if r ∈ seen then dropDupAux seen rs
               else r :: dropDupAux (r :: seen) rs

/-- `df.drop_duplicates()` on the row list: keep the first occurrence of
every row, dropping later exact duplicates (app.py line 82). -/
def drop_duplicates (rs : List Row) : List Row :=
  dropDupAux [] rs

/-! ### Stage 3: `df.replace(r"^\s*$", np.nan, regex=True)` (line 83) -/

/-- A string cell consisting only of whitespace (the regex `^\s*$`,
which also matches the empty string) becomes the missing marker;
other cells are unchanged (app.py line 83). -/
def blankToNA : Cell → Cell
  | Cell.str s => if s.toList.all Char.isWhitespace then Cell.na else Cell.str s
  | x => x

/-- Strip leading and trailing whitespace from a string, the way
`str.strip()` / pandas `.str.strip()` do (working on the character
list). -/
def stripStr (s : String) : String :=
  ⟨((s.toList.dropWhile Char.isWhitespace).reverse.dropWhile
      Char.isWhitespace).reverse⟩

/-! ### Stage 4a: `pd.to_numeric` (app.py lines 86-89) -/

/-- Parse a nonempty list of decimal digits into a natural number;
`none` if any character is not a digit. -/
def digitsVal (cs : List Char) : Option ℕ :=
  cs.foldl (fun acc c =>
    acc.bind fun a => if c.isDigit then some (a * 10 + (c.toNat - 48)) else none)
    (some 0)

/-- Parse a string as a decimal number the way `pd.to_numeric` parses a
cell: optional surrounding whitespace, optional sign, digits with an
optional fractional part.  Returns `none` when the string is not a
number. -/
def parseRat (s : String) : Option ℚ :=
  let cs := (stripStr s).toList
  let sg : ℚ × List Char :=
    match cs with
    | '-' :: r => (-1, r)
    | '+' :: r => (1, r)
    | _ => (1, cs)
  let intPart := sg.2.takeWhile (fun c => c ≠ '.')
  let rest := sg.2.dropWhile (fun c => c ≠ '.')
  match rest with
  | [] =>
    if intPart.isEmpty then none
    else (digitsVal intPart).map fun n => sg.1 * n
  | _ :: frac =>
    if intPart.isEmpty && frac.isEmpty then none
    else
      match digitsVal intPart, digitsVal frac with
      | some a, some b =>
          some (sg.1 * ((a : ℚ) + (b : ℚ) / (10 : ℚ) ^ frac.length))
      | _, _ => none

/-- One cell under `pd.to_numeric`: numbers and `NaN` pass through,
a string must parse as a number, otherwise the (first) offending string
is raised as the error. -/
def parseNumCell : Cell → Except String Cell
  | Cell.na => Except.ok Cell.na
  | Cell.num q => Except.ok (Cell.num q)
  | Cell.str s =>
    match parseRat s with
    | some q => Except.ok (Cell.num q)
    | none => Except.error s

/-- `pd.to_numeric(df[col])` (app.py line 87): convert the whole column,
raising (returning `Except.error`) on the first value that does not
parse as a number.  All-or-nothing: either every cell converts or the
call fails. -/
def to_numeric : List Cell → Except String (List Cell)
  | [] => Except.ok []
  | x :: xs =>
    match parseNumCell x with
    | Except.error e => Except.error e
    | Except.ok y =>
      match to_numeric xs with
      | Except.error e => Except.error e
      | Except.ok ys => Except.ok (y :: ys)

/-- The `try: df[col] = pd.to_numeric(df[col]) except: pass` block
(app.py lines 86-89): on failure the column is left exactly as it
was. -/
def coerceColumn (c : List Cell) : List Cell :=
  match to_numeric c with
  | Except.ok c2 => c2
  | Except.error _ => c

/-- A cell is compatible with a numeric dtype (`int64`/`float64`):
numbers and `NaN` are, strings are not. -/
def cellNumericOrNA : Cell → Bool
  | Cell.str _ => false
  | _ => true

/-- The dtype test `df[col].dtype in ["int64", "float64"]` (app.py
line 90): after the coercion attempt a column is numeric exactly when
it holds no string cell. -/
def isNumericDtype (c : List Cell) : Bool :=
  c.all cellNumericOrNA

/-! ### Quantiles: `Series.quantile` / `median` (app.py lines 91, 97, 100) -/

/-- Ascending sort of the column's numeric values. -/
def sortQ (l : List ℚ) : List ℚ :=
  l.insertionSort (· ≤ ·)

/-- Linear interpolation at (rational) position `p` into a sorted list,
as pandas' default `interpolation="linear"` does: with `i = ⌊p⌋`, the
value is `s[i] + (p − i) * (s[min(i+1, n−1)] − s[i])`. -/
def interpPos (s : List ℚ) (p : ℚ) : ℚ :=
  let i : ℕ := (Int.toNat ⌊p⌋)
  let lo := s.getD i 0
  let hi := s.getD (min (i + 1) (s.length - 1)) 0
  lo + (p - (i : ℚ)) * (hi - lo)

/-- `Series.quantile(q)` over the non-missing values `vals` (pandas
skips `NaN` and linearly interpolates at position `q * (n − 1)` in the
sorted values).  Unused guard value `0` for an empty list. -/
def quantileQ (vals : List ℚ) (q : ℚ) : ℚ :=
  let s := sortQ vals
  if s.isEmpty then 0 else interpPos s (q * ((s.length : ℚ) - 1))

/-- `df[col].median()`: the 0.5 quantile of the column's numeric
values (app.py lines 91 and 100). -/
def medianOf (c : List Cell) : ℚ :=
  quantileQ (numVals c) (1 / 2)

/-- `q1` of app.py line 97: the 0.25 quantile. -/
def q1Of (c : List Cell) : ℚ :=
  quantileQ (numVals c) (1 / 4)

/-- `q3` of app.py line 97: the 0.75 quantile. -/
def q3Of (c : List Cell) : ℚ :=
  quantileQ (numVals c) (3 / 4)

/-- `lower = q1 - 1.5 * iqr` (app.py lines 98-99). -/
def lowerOf (c : List Cell) : ℚ :=
  q1Of c - 3 / 2 * (q3Of c - q1Of c)

/-- `upper = q3 + 1.5 * iqr` (app.py lines 98-99). -/
def upperOf (c : List Cell) : ℚ :=
  q3Of c + 3 / 2 * (q3Of c - q1Of c)

/-! ### Stage 4b/4c: imputation (app.py lines 90-93) -/

/-- Lexicographic comparison of character lists by code point, the
order Python uses to compare the strings that `Series.mode()` sorts. -/
def charListLE : List Char → List Char → Bool
  | [], _ => true
  | _ :: _, [] => false
  | a :: as, b :: bs => if a = b then charListLE as bs else decide (a < b)

/-- Lexicographic string comparison by code point. -/
def strLE (a b : String) : Bool :=
  charListLE a.toList b.toList

/-- The total order in which pandas sorts the tied modes: numbers by
value, strings lexicographically, numbers before strings (a fixed
arbitrary choice for the mixed case, which cannot arise in a column
read from a CSV). -/
def cellLE : Cell → Cell → Bool
  | Cell.na, _ => true
  | _, Cell.na => false
  | Cell.num a, Cell.num b => a ≤ b
  | Cell.num _, Cell.str _ => true
  | Cell.str _, Cell.num _ => false
  | Cell.str a, Cell.str b => strLE a b

/-- First element of `mode()` over a value list: among the values, a
value of maximal multiplicity, smallest in the `cellLE` order among the
tied ones (pandas sorts the modes); `none` for an empty list. -/
def modeOfList (vs : List Cell) : Option Cell :=
  let mx := (vs.map fun v => vs.count v).foldl max 0
  match vs.filter (fun v => vs.count v == mx) with
  | [] => none
  | v :: rest => some (rest.foldl (fun m x => if cellLE x m then x else m) v)

/-- First element of `Series.mode()` (app.py line 93): a most frequent
non-missing value, smallest in the `cellLE` order among the tied ones.
`none` exactly when the column has no non-missing value. -/
def modeFirst (c : List Cell) : Option Cell :=
  modeOfList (nonNACells c)

/-- The fill value of the textual branch,
`df[col].mode()[0] if not df[col].mode().empty else "Unknown"`
(app.py line 93). -/
def textualFillValue (c : List Cell) : Cell :=
  (modeFirst c).getD (Cell.str "Unknown")

/-- `df[col].fillna(v)`: replace every missing cell by `v`. -/
def fillNAWith (v : Cell) (c : List Cell) : List Cell :=
  c.map fun x => if x = Cell.na then v else x

/-- The textual branch of stage 4 (app.py line 93): fill missing cells
with the first mode, or with `"Unknown"` when there is none. -/
def textualFillColumn (c : List Cell) : List Cell :=
  fillNAWith (textualFillValue c) c

/-- The numeric branch of stage 4 (app.py line 91):
`df[col].fillna(df[col].median(), inplace=True)`.  When every value is
missing the median of the empty value set is `NaN` and `fillna(NaN)`
changes nothing, so the column is left as it is. -/
def numericFillColumn (c : List Cell) : List Cell :=
  if (numVals c).isEmpty then c
  else fillNAWith (Cell.num (medianOf c)) c

/-- The whole per-column body of the stage-4 loop (app.py lines 85-93):
attempt numeric coercion, then impute by median or by mode/"Unknown"
according to the resulting dtype. -/
def imputeColumn (c : List Cell) : List Cell :=
  let c1 := coerceColumn c
  if isNumericDtype c1 then numericFillColumn c1
  else textualFillColumn c1

/-! ### Stage 5: outlier clipping (app.py lines 95-100) -/

/-- `np.where((df[col] < lower) | (df[col] > upper), df[col].median(),
df[col])` (app.py line 100): numeric values strictly outside
`[lower, upper]` become the column's (post-imputation) median; `NaN`
compares false and is kept. -/
def clipColumn (c : List Cell) : List Cell :=
  c.map fun x => match x with
    | Cell.num v =>
        if v < lowerOf c ∨ v > upperOf c then Cell.num (medianOf c) else x
    | x => x

/-! ### Table-level stages (app.py lines 81-104) -/

/-- Stage 1, `df.columns = df.columns.str.strip()` (app.py line 81). -/
def stripHeaders (t : Table) : Table :=
  { t with headers := t.headers.map stripStr }

/-- Stage 2 at table level: deduplicate the row list and rebuild the
columns.  A table whose rows are all gone (zero-row input) keeps its
(empty) columns. -/
def dedupTable (t : Table) : Table :=
  let kept := drop_duplicates t.cols.transpose
  { t with cols := if kept.isEmpty then t.cols.map (fun _ => []) else kept.transpose }

/-- Stage 3 at table level (app.py line 83). -/
def blankTable (t : Table) : Table :=
  { t with cols := t.cols.map (List.map blankToNA) }

/-- Stage 4 at table level: the `for col in df.columns` loop
(app.py lines 85-93). -/
def imputeTable (t : Table) : Table :=
  { t with cols := t.cols.map imputeColumn }

/-- Stages 1-4 of the pipeline composed in source order. -/
def stage4Table (t : Table) : Table :=
  imputeTable (blankTable (dedupTable (stripHeaders t)))

/-- Stage 5 at table level: clip exactly the numeric-dtype columns
(app.py lines 95-100). -/
def clipTable (t : Table) : Table :=
  { t with cols := t.cols.map fun c => if isNumericDtype c then clipColumn c else c }

/-- Stage 6 (app.py lines 103-104): `df.dropna(axis=1, how="all")`
drops the columns whose cells are all missing, then
`df.loc[:, (df != "").any(axis=0)]` keeps the columns having some cell
different from the empty string. -/
def pruneTable (t : Table) : Table :=
  let pairs := (t.headers.zip t.cols).filter fun p => !(p.2.all fun x => x == Cell.na)
  let pairs2 := pairs.filter fun p => p.2.any fun x => x != Cell.str ""
  { headers := pairs2.map Prod.fst, cols := pairs2.map Prod.snd }

/-- The whole cleaning pipeline, stages 1-6 in source order
(app.py lines 81-104; `convert_dtypes` on line 102 only refines storage
dtypes and does not change any cell). -/
def cleanTable (t : Table) : Table :=
  pruneTable (clipTable (stage4Table t))

/-! ### Quality score (app.py lines 45-47 and 114-116) -/

/-- `df.size`: the number of cells. -/
def totalCells (t : Table) : ℕ :=
  (t.cols.map List.length).sum

/-- `df.isnull().sum().sum()`: the number of missing cells. -/
def missingCells (t : Table) : ℕ :=
  (t.cols.map fun c => c.count Cell.na).sum

/-- Numpy true division as the score computation uses it: dividing by
zero does not raise; the only reachable zero-denominator case here is
`0 / 0`, whose value is `NaN`, modelled as `none`. -/
def divNan (a b : ℚ) : Option ℚ :=
  if b = 0 then none else some (a / b)

/-- `100 * (1 - missing_cells / total_cells)` (app.py lines 45-47 and
114-116).  `none` models the `NaN` produced by `0 / 0` on a table with
no cells. -/
def scoreTable (t : Table) : Option ℚ :=
  (divNan (missingCells t) (totalCells t)).map fun r => 100 * (1 - r)

/-! ### The session (app.py lines 29-192) -/

/-- Everything a successful session run delivers to the user. -/
structure SessionOutput where
  analysis : String
  cleaned : Table
  beforeQ : Option ℚ
  afterQ : Option ℚ
  report : String
  csvArtifact : Table
  deriving Repr

/-- The straight-line session of app.py lines 39-192 after a successful
load: score, first narrative call (line 70), cleaning, score again,
second narrative call (line 139), then the PDF and the cleaned-CSV
download artifact.  The two remote `model.generate_content` calls are
oracle inputs; no `try`/`except` surrounds them in the source, so a
failure propagates and aborts every later step of the run. -/
def runSession (t : Table) (gen1 gen2 : Except String String) :
    Except String SessionOutput := do
  let before := scoreTable t
  let analysis ← gen1
  let cleaned := cleanTable t
  let after := scoreTable cleaned
  let report ← gen2
  pure ⟨analysis, cleaned, before, after, report, cleaned⟩

/-- The session delivers the cleaned-CSV download artifact exactly when
it runs to its end (app.py lines 186-192 are the last statements of the
straight-line run). -/
def csvProduced (t : Table) (gen1 gen2 : Except String String) : Prop :=
  ∃ out, runSession t gen1 gen2 = Except.ok out

/-! ### Auxiliary definitions used only in statements -/

/-- The total cell conversion `to_numeric` performs when it succeeds,
as a total function: parseable strings become numbers, everything else
is unchanged. -/
def forceNumCell : Cell → Cell
  | Cell.str s =>
    match parseRat s with
    | some q => Cell.num q
    | none => Cell.str s
  | x => x

/-- Spec-side formulation of duplicate-row removal, following the
spec's words (§4.2 stage 2): keep exactly the rows that are not an
exact duplicate of an earlier row, in their original order.  Row `i`
survives iff it does not occur among the first `i` rows. -/
def keepFirstOccurrences (rs : List Row) : List Row :=
  (rs.enum.filter fun p => decide (p.2 ∉ rs.take p.1)).map Prod.snd

/-- `df.shape[0]`: the row count (length of any column). -/
def numRows (t : Table) : ℕ :=
  match t.cols with
  | [] => 0
  | c :: _ => c.length

/-- `df.shape[1]`: the column count. -/
def numCols (t : Table) : ℕ :=
  t.cols.length

/-- The worked example of spec §8: columns `["Name", " Age "]`, rows
`("Alice", "30")`, `("Alice", "30")`, `("Bob", "")` (column-major). -/
def exampleTable : Table :=
  ⟨["Name", " Age "],
   [[Cell.str "Alice", Cell.str "Alice", Cell.str "Bob"],
    [Cell.str "30", Cell.str "30", Cell.str ""]]⟩

/-- A table with one column and zero rows: `total_cells = 0`. -/
def emptyColTable : Table :=
  ⟨["A"], [[]]⟩

/-- A one-column table whose only cell is blank, so that the column is
entirely missing once stage 3 has run. -/
def allBlankTable : Table :=
  ⟨["A"], [[Cell.str ""]]⟩

/-- A numeric column with one outlier, used to witness the clipping
theorem: `Q1 = 2`, `Q3 = 4`, `IQR = 2`, bounds `[-1, 7]`, median `3`. -/
def outlierColumn : List Cell :=
  [Cell.num 1, Cell.num 2, Cell.num 3, Cell.num 4, Cell.num 100]

/-! ## Lemmas about duplicate-row removal -/

theorem dropDupAux_eq (seen rs : List Row) :
    dropDupAux seen rs =
      ((rs.enum.filter fun p => decide (p.2 ∉ seen ∧ p.2 ∉ rs.take p.1)).map
        Prod.snd) := by
  induction rs generalizing seen with
  | nil => rfl
  | cons r rs ih =>
    rw [List.enum_cons', List.filter_cons, List.filter_map]
    have hcomp :
        ((fun p : ℕ × Row => decide (p.2 ∉ seen ∧ p.2 ∉ (r :: rs).take p.1)) ∘
          Prod.map (· + 1) id) =
        fun p : ℕ × Row => decide (p.2 ∉ r :: seen ∧ p.2 ∉ rs.take p.1) := by
      funext p
      rcases p with ⟨i, x⟩
      simp only [Function.comp, Prod.map, id, List.take_succ_cons]
      rw [decide_eq_decide]
      simp only [List.mem_cons]
      tauto
    rw [hcomp]
    by_cases hr : r ∈ seen
    · have h0 : decide (((0 : ℕ), r).2 ∉ seen ∧ r ∉ (r :: rs).take 0) = false := by
        simp [hr]
      rw [h0, if_neg Bool.false_ne_true]
      have hpred :
          (rs.enum.filter fun p : ℕ × Row =>
            decide (p.2 ∉ r :: seen ∧ p.2 ∉ rs.take p.1)) =
          rs.enum.filter fun p : ℕ × Row =>
            decide (p.2 ∉ seen ∧ p.2 ∉ rs.take p.1) := by
        apply List.filter_congr
        intro p _
        rw [decide_eq_decide, List.mem_cons]
        constructor
        · rintro ⟨h1, h2⟩
          exact ⟨fun hs => h1 (Or.inr hs), h2⟩
        · rintro ⟨h1, h2⟩
          refine ⟨fun hor => ?_, h2⟩
          rcases hor with rfl | hs
          · exact h1 hr
          · exact h1 hs
      rw [hpred, List.map_map]
      have : (Prod.snd ∘ Prod.map (· + 1 : ℕ → ℕ) (id : Row → Row)) =
          (Prod.snd : ℕ × Row → Row) := by
        funext p; rcases p with ⟨i, x⟩; rfl
      rw [this, ← ih seen]
      simp [dropDupAux, hr]
    · have h0 : decide (((0 : ℕ), r).2 ∉ seen ∧ r ∉ (r :: rs).take 0) = true := by
        simp [hr]
      rw [h0, if_pos rfl]
      simp only [List.map_cons, List.map_map]
      have : (Prod.snd ∘ Prod.map (· + 1 : ℕ → ℕ) (id : Row → Row)) =
          (Prod.snd : ℕ × Row → Row) := by
        funext p; rcases p with ⟨i, x⟩; rfl
      rw [this, ← ih (r :: seen)]
      simp [dropDupAux, hr]

theorem mem_of_mem_dropDupAux {seen rs : List Row} {x : Row}
    (h : x ∈ dropDupAux seen rs) : x ∈ rs ∧ x ∉ seen := by
  induction rs generalizing seen with
  | nil => cases h
  | cons r rs ih =>
    by_cases hr : r ∈ seen
    · rw [dropDupAux, if_pos hr] at h
      obtain ⟨h1, h2⟩ := ih h
      exact ⟨List.mem_cons_of_mem _ h1, h2⟩
    · rw [dropDupAux, if_neg hr] at h
      rcases List.mem_cons.mp h with rfl | h'
      · exact ⟨List.mem_cons_self _ _, hr⟩
      · obtain ⟨h1, h2⟩ := ih h'
        refine ⟨List.mem_cons_of_mem _ h1, fun hs => h2 ?_⟩
        exact List.mem_cons_of_mem _ hs

theorem nodup_dropDupAux (seen rs : List Row) : (dropDupAux seen rs).Nodup := by
  induction rs generalizing seen with
  | nil => exact List.nodup_nil
  | cons r rs ih =>
    by_cases hr : r ∈ seen
    · rw [dropDupAux, if_pos hr]; exact ih seen
    · rw [dropDupAux, if_neg hr]
      refine List.Nodup.cons (fun hmem => ?_) (ih (r :: seen))
      exact (mem_of_mem_dropDupAux hmem).2 (List.mem_cons_self _ _)

theorem dropDupAux_of_nodup {rs : List Row} (h : rs.Nodup) :
    ∀ seen, (∀ x ∈ rs, x ∉ seen) → dropDupAux seen rs = rs := by
  induction rs with
  | nil => intro seen _; rfl
  | cons r rs ih =>
    intro seen hdisj
    have hr : r ∉ seen := hdisj r (List.mem_cons_self _ _)
    rw [dropDupAux, if_neg hr]
    have htail : rs.Nodup := h.of_cons
    have hhd : r ∉ rs := (List.nodup_cons.mp h).1
    rw [ih htail (r :: seen) ?_]
    intro x hx
    rw [List.mem_cons]
    rintro (rfl | hs)
    · exact hhd hx
    · exact hdisj x (List.mem_cons_of_mem _ hx) hs

/-- C7: `drop_duplicates` removes exactly the rows that are exact
duplicates of an earlier row (cell-wise equality, with the missing
marker equal to itself), keeps the first occurrence of each duplicated
row, and preserves the original relative order of the survivors: it
equals the positional filter `keepFirstOccurrences`, which keeps row
`i` exactly when it does not occur among rows `0..i-1`. -/
theorem drop_duplicates_keeps_first_occurrences (rs : List Row) :
    drop_duplicates rs = keepFirstOccurrences rs := by
  rw [drop_duplicates, dropDupAux_eq, keepFirstOccurrences]
  congr 1
  apply List.filter_congr
  intro p _
  rw [decide_eq_decide]
  simp

/-- C9: duplicate-row removal is idempotent: applying
`drop_duplicates` twice yields the same rows as applying it once. -/
theorem drop_duplicates_idempotent (rs : List Row) :
    drop_duplicates (drop_duplicates rs) = drop_duplicates rs := by
  rw [drop_duplicates, drop_duplicates]
  exact dropDupAux_of_nodup (nodup_dropDupAux [] rs) [] (by simp)

/-! ## Lemmas about numeric coercion -/

theorem parseNumCell_error {x : Cell} {e : String}
    (h : parseNumCell x = Except.error e) :
    x = Cell.str e ∧ parseRat e = none := by
  cases x with
  | num q => rw [parseNumCell] at h; cases h
  | na => rw [parseNumCell] at h; cases h
  | str s =>
    rw [parseNumCell] at h
    split at h
    · cases h
    · next hp =>
      injection h with h1
      subst h1
      exact ⟨rfl, hp⟩

theorem parseNumCell_ok {x y : Cell} (h : parseNumCell x = Except.ok y) :
    y = forceNumCell x ∧ ∀ s, x = Cell.str s → (parseRat s).isSome = true := by
  cases x with
  | num q =>
    rw [parseNumCell] at h
    injection h with h1
    exact ⟨h1.symm, fun s hs => by cases hs⟩
  | na =>
    rw [parseNumCell] at h
    injection h with h1
    exact ⟨h1.symm, fun s hs => by cases hs⟩
  | str s =>
    rw [parseNumCell] at h
    split at h
    · next q hp =>
      injection h with h1
      refine ⟨?_, fun s' hs' => ?_⟩
      · rw [← h1, forceNumCell, hp]
      · injection hs' with h2
        subst h2
        rw [hp]
        rfl
    · cases h

theorem to_numeric_isOk_iff (c : List Cell) :
    (to_numeric c).isOk = true ↔
      ∀ s, Cell.str s ∈ c → (parseRat s).isSome = true := by
  induction c with
  | nil => exact iff_of_true rfl (fun s hs => by cases hs)
  | cons x xs ih =>
    rw [to_numeric]
    split
    · next e he =>
      refine iff_of_false (fun hko => Bool.false_ne_true hko) ?_
      obtain ⟨rfl, hp⟩ := parseNumCell_error he
      intro hall
      have := hall e (List.mem_cons_self _ _)
      rw [hp] at this
      cases this
    · next y hy =>
      split
      · next e he =>
        refine iff_of_false (fun hko => Bool.false_ne_true hko) ?_
        intro hall
        have hxs : (to_numeric xs).isOk = true :=
          ih.mpr fun s hs => hall s (List.mem_cons_of_mem _ hs)
        rw [he] at hxs
        cases hxs
      · next ys hys =>
        refine iff_of_true rfl ?_
        intro s hs
        rcases List.mem_cons.mp hs with rfl | hs'
        · exact (parseNumCell_ok hy).2 s rfl
        · exact ih.mp (by rw [hys]; rfl) s hs'

theorem to_numeric_ok_eq {c c2 : List Cell} (h : to_numeric c = Except.ok c2) :
    c2 = c.map forceNumCell := by
  induction c generalizing c2 with
  | nil =>
    rw [to_numeric] at h
    injection h with h1
    simp [← h1]
  | cons x xs ih =>
    rw [to_numeric] at h
    split at h
    · cases h
    · next y hy =>
      split at h
      · cases h
      · next ys hys =>
        injection h with h1
        rw [← h1, List.map_cons, (parseNumCell_ok hy).1, ih hys]

theorem exists_bad_str_of_error {c : List Cell} {e : String}
    (h : to_numeric c = Except.error e) :
    ∃ s, Cell.str s ∈ c ∧ parseRat s = none := by
  induction c with
  | nil => rw [to_numeric] at h; cases h
  | cons x xs ih =>
    rw [to_numeric] at h
    split at h
    · next e2 he2 =>
      obtain ⟨rfl, hp⟩ := parseNumCell_error he2
      exact ⟨e2, List.mem_cons_self _ _, hp⟩
    · next y hy =>
      split at h
      · next e2 he2 =>
        injection h with h1
        rw [h1] at he2
        obtain ⟨s, hs, hp⟩ := ih he2
        exact ⟨s, List.mem_cons_of_mem _ hs, hp⟩
      · cases h

theorem isNumericDtype_of_ok {c c2 : List Cell}
    (h : to_numeric c = Except.ok c2) : isNumericDtype c2 = true := by
  rw [to_numeric_ok_eq h, isNumericDtype, List.all_eq_true]
  intro y hy
  obtain ⟨x, hx, rfl⟩ := List.mem_map.mp hy
  cases x with
  | num q => rfl
  | na => rfl
  | str s =>
    have hiso : (parseRat s).isSome = true :=
      (to_numeric_isOk_iff c).mp (by rw [h]; rfl) s hx
    obtain ⟨q, hq⟩ := Option.isSome_iff_exists.mp hiso
    rw [forceNumCell, hq]
    rfl

theorem isNumericDtype_false_of_error {c : List Cell} {e : String}
    (h : to_numeric c = Except.error e) : isNumericDtype c = false := by
  obtain ⟨s, hs, _⟩ := exists_bad_str_of_error h
  cases hall : isNumericDtype c with
  | false => rfl
  | true =>
    exfalso
    have := List.all_eq_true.mp hall _ hs
    cases this

/-- C6: numeric coercion is all-or-nothing and never raises:
`to_numeric` succeeds exactly when every string cell parses as a number
(non-string cells always pass); when it fails, the `try/except` wrapper
`coerceColumn` returns the column completely unchanged, propagating no
error; when it succeeds, every cell has been converted (the column is
numeric, with each parseable string replaced by its numeric value). -/
theorem to_numeric_all_or_nothing (c : List Cell) :
    ((to_numeric c).isOk = true ↔
      ∀ s, Cell.str s ∈ c → (parseRat s).isSome = true)
    ∧ ((to_numeric c).isOk = false → coerceColumn c = c)
    ∧ (∀ c2, to_numeric c = Except.ok c2 →
        c2 = c.map forceNumCell ∧ isNumericDtype c2 = true) := by
  refine ⟨to_numeric_isOk_iff c, fun h => ?_, fun c2 h2 => ?_⟩
  · cases hto : to_numeric c with
    | ok c2 => rw [hto] at h; cases h
    | error e => rw [coerceColumn, hto]
  · exact ⟨to_numeric_ok_eq h2, isNumericDtype_of_ok h2⟩

/-- Witness for C6 at a concrete column: `"abc"` does not parse, so the
whole column survives unchanged. -/
theorem to_numeric_all_or_nothing_witness :
    coerceColumn [Cell.str "abc", Cell.num 1] = [Cell.str "abc", Cell.num 1] :=
  (to_numeric_all_or_nothing [Cell.str "abc", Cell.num 1]).2.1 (by decide)

/-! ## Lemmas about the mode order and the mode computation -/

theorem charListLE_refl (l : List Char) : charListLE l l = true := by
  induction l with
  | nil => rfl
  | cons a as ih => rw [charListLE]; simp [ih]

theorem charListLE_total (as bs : List Char) :
    charListLE as bs = true ∨ charListLE bs as = true := by
  induction as generalizing bs with
  | nil => exact Or.inl rfl
  | cons a as ih =>
    cases bs with
    | nil => exact Or.inr rfl
    | cons b bs =>
      rw [charListLE, charListLE]
      by_cases hab : a = b
      · subst hab
        simp only [if_pos rfl]
        exact ih bs
      · have hba : b ≠ a := fun h => hab h.symm
        rw [if_neg hab, if_neg hba]
        rcases lt_or_gt_of_ne hab with h | h
        · exact Or.inl (decide_eq_true h)
        · exact Or.inr (decide_eq_true h)

theorem charListLE_trans {as bs cs : List Char}
    (h1 : charListLE as bs = true) (h2 : charListLE bs cs = true) :
    charListLE as cs = true := by
  induction as generalizing bs cs with
  | nil => rfl
  | cons a as ih =>
    cases bs with
    | nil => rw [charListLE] at h1; cases h1
    | cons b bs =>
      cases cs with
      | nil => rw [charListLE] at h2; cases h2
      | cons c cs =>
        rw [charListLE] at h1 h2 ⊢
        by_cases hab : a = b <;> by_cases hbc : b = c
        · subst hab; subst hbc
          rw [if_pos rfl] at h1 h2 ⊢
          exact ih h1 h2
        · subst hab
          rw [if_pos rfl] at h1
          rw [if_neg hbc] at h2 ⊢
          exact h2
        · subst hbc
          rw [if_neg hab] at h1 ⊢
          exact h1
        · rw [if_neg hab] at h1
          rw [if_neg hbc] at h2
          have hac : a < c := lt_trans (of_decide_eq_true h1) (of_decide_eq_true h2)
          rw [if_neg (ne_of_lt hac)]
          exact decide_eq_true hac

theorem cellLE_refl (a : Cell) : cellLE a a = true := by
  cases a with
  | num q => simp [cellLE]
  | str s => rw [cellLE, strLE]; exact charListLE_refl _
  | na => rfl

theorem cellLE_total (a b : Cell) : cellLE a b = true ∨ cellLE b a = true := by
  cases a with
  | num qa =>
    cases b with
    | num qb =>
      rw [cellLE, cellLE]
      rcases le_total qa qb with h | h
      · exact Or.inl (decide_eq_true h)
      · exact Or.inr (decide_eq_true h)
    | str sb => exact Or.inl rfl
    | na => exact Or.inr rfl
  | str sa =>
    cases b with
    | num qb => exact Or.inr rfl
    | str sb => rw [cellLE, cellLE, strLE, strLE]; exact charListLE_total _ _
    | na => exact Or.inr rfl
  | na => exact Or.inl (by cases b <;> rfl)

theorem cellLE_trans {a b c : Cell} (h1 : cellLE a b = true)
    (h2 : cellLE b c = true) : cellLE a c = true := by
  cases a <;> cases b <;> cases c
  case num.num.num =>
    rw [cellLE] at h1 h2 ⊢
    exact decide_eq_true (le_trans (of_decide_eq_true h1) (of_decide_eq_true h2))
  case str.str.str =>
    rw [cellLE, strLE] at h1 h2 ⊢
    exact charListLE_trans h1 h2
  all_goals first
    | rfl
    | exact Bool.noConfusion h1
    | exact Bool.noConfusion h2

theorem foldl_max_le_self (a : ℕ) (l : List ℕ) : a ≤ l.foldl max a := by
  induction l generalizing a with
  | nil => exact le_refl a
  | cons b l ih => exact le_trans (le_max_left a b) (ih (max a b))

theorem le_foldl_max (a : ℕ) (l : List ℕ) : ∀ x ∈ l, x ≤ l.foldl max a := by
  induction l generalizing a with
  | nil => intro x hx; cases hx
  | cons b l ih =>
    intro x hx
    rcases List.mem_cons.mp hx with rfl | hx'
    · exact le_trans (le_max_right a x) (foldl_max_le_self _ l)
    · exact ih (max a b) x hx'

theorem foldl_max_choice (a : ℕ) (l : List ℕ) :
    l.foldl max a = a ∨ l.foldl max a ∈ l := by
  induction l generalizing a with
  | nil => exact Or.inl rfl
  | cons b l ih =>
    rcases ih (max a b) with h | h
    · rcases max_choice a b with hm | hm
      · exact Or.inl (by rw [List.foldl_cons, h, hm])
      · exact Or.inr (by rw [List.foldl_cons, h, hm]; exact List.mem_cons_self _ _)
    · exact Or.inr (List.mem_cons_of_mem _ h)

theorem foldl_minCell_mem (v : Cell) (l : List Cell) :
    l.foldl (fun m x => if cellLE x m then x else m) v ∈ v :: l := by
  induction l generalizing v with
  | nil => exact List.mem_singleton_self v
  | cons x l ih =>
    rw [List.foldl_cons]
    by_cases h : cellLE x v = true
    · rw [if_pos h]
      rcases List.mem_cons.mp (ih x) with h' | h'
      · rw [h']; exact List.mem_cons_of_mem _ (List.mem_cons_self _ _)
      · exact List.mem_cons_of_mem _ (List.mem_cons_of_mem _ h')
    · rw [if_neg h]
      rcases List.mem_cons.mp (ih v) with h' | h'
      · rw [h']; exact List.mem_cons_self _ _
      · exact List.mem_cons_of_mem _ (List.mem_cons_of_mem _ h')

theorem foldl_minCell_le (v : Cell) (l : List Cell) :
    ∀ y ∈ v :: l, cellLE (l.foldl (fun m x => if cellLE x m then x else m) v) y = true := by
  induction l generalizing v with
  | nil =>
    intro y hy
    rcases List.mem_cons.mp hy with rfl | hy'
    · exact cellLE_refl y
    · cases hy'
  | cons x l ih =>
    intro y hy
    rw [List.foldl_cons]
    by_cases h : cellLE x v = true
    · rw [if_pos h]
      rcases List.mem_cons.mp hy with h1 | hy'
      · rw [h1]
        exact cellLE_trans (ih x x (List.mem_cons_self x l)) h
      · rcases List.mem_cons.mp hy' with h2 | hy''
        · rw [h2]
          exact ih x x (List.mem_cons_self x l)
        · exact ih x y (List.mem_cons_of_mem _ hy'')
    · rw [if_neg h]
      have hvx : cellLE v x = true := (cellLE_total x v).resolve_left h
      rcases List.mem_cons.mp hy with h1 | hy'
      · rw [h1]
        exact ih v v (List.mem_cons_self v l)
      · rcases List.mem_cons.mp hy' with h2 | hy''
        · rw [h2]
          exact cellLE_trans (ih v v (List.mem_cons_self v l)) hvx
        · exact ih v y (List.mem_cons_of_mem _ hy'')

theorem modeOfList_spec {vs : List Cell} {v : Cell}
    (h : modeOfList vs = some v) :
    v ∈ vs ∧ (∀ w ∈ vs, vs.count w ≤ vs.count v) ∧
      (∀ w ∈ vs, vs.count w = vs.count v → cellLE v w = true) := by
  simp only [modeOfList] at h
  split at h
  · cases h
  · next w rest heq =>
    injection h with hv
    have hcand : ∀ y, y ∈ w :: rest →
        y ∈ vs ∧ vs.count y = (vs.map fun u => vs.count u).foldl max 0 := by
      intro y hy
      rw [← heq] at hy
      have hf := List.mem_filter.mp hy
      exact ⟨hf.1, by simpa using hf.2⟩
    have hmem : v ∈ w :: rest := hv ▸ foldl_minCell_mem w rest
    have hvcount : vs.count v = (vs.map fun u => vs.count u).foldl max 0 :=
      (hcand v hmem).2
    refine ⟨(hcand v hmem).1, ?_, ?_⟩
    · intro u hu
      rw [hvcount]
      exact le_foldl_max 0 _ _ (List.mem_map_of_mem _ hu)
    · intro u hu hequ
      have hucount : vs.count u = (vs.map fun u => vs.count u).foldl max 0 := by
        rw [hequ, hvcount]
      have humem : u ∈ w :: rest := by
        rw [← heq]
        exact List.mem_filter.mpr ⟨hu, by simpa using hucount⟩
      exact hv ▸ foldl_minCell_le w rest u humem

theorem modeOfList_isSome {vs : List Cell} (h : vs ≠ []) :
    ∃ v, modeOfList vs = some v := by
  simp only [modeOfList]
  split
  · next heq =>
    exfalso
    obtain ⟨v0, hv0⟩ := List.exists_mem_of_ne_nil vs h
    rcases foldl_max_choice 0 (vs.map fun u => vs.count u) with hc | hc
    · have h1 : 0 < vs.count v0 := List.count_pos_iff.mpr hv0
      have h2 : vs.count v0 ≤ (vs.map fun u => vs.count u).foldl max 0 :=
        le_foldl_max 0 _ _ (List.mem_map_of_mem _ hv0)
      rw [hc] at h2
      omega
    · obtain ⟨u, hu, hcu⟩ := List.mem_map.mp hc
      have humem : u ∈ vs.filter
          (fun v => vs.count v == (vs.map fun u => vs.count u).foldl max 0) :=
        List.mem_filter.mpr ⟨hu, by simpa using hcu⟩
      rw [heq] at humem
      exact absurd humem (List.not_mem_nil u)
  · next v rest heq => exact ⟨_, rfl⟩

theorem modeFirst_spec {c : List Cell} {v : Cell} (h : modeFirst c = some v) :
    v ∈ nonNACells c ∧
      (∀ w ∈ nonNACells c, (nonNACells c).count w ≤ (nonNACells c).count v) ∧
      (∀ w ∈ nonNACells c,
        (nonNACells c).count w = (nonNACells c).count v → cellLE v w = true) :=
  modeOfList_spec h

theorem modeFirst_isSome {c : List Cell} (h : nonNACells c ≠ []) :
    ∃ v, modeFirst c = some v :=
  modeOfList_isSome h

theorem mem_nonNACells {x : Cell} {c : List Cell} :
    x ∈ nonNACells c ↔ x ∈ c ∧ x ≠ Cell.na := by
  simp [nonNACells, List.mem_filter, bne_iff_ne]

/-! ## Lemmas about stage-4 imputation -/

theorem fillNAWith_ne_na {v : Cell} (hv : v ≠ Cell.na) (c : List Cell) :
    ∀ x ∈ fillNAWith v c, x ≠ Cell.na := by
  intro x hx
  rw [fillNAWith] at hx
  obtain ⟨y, hy, hfy⟩ := List.mem_map.mp hx
  rw [← hfy]
  by_cases h : y = Cell.na
  · rw [if_pos h]; exact hv
  · rw [if_neg h]; exact h

theorem imputeColumn_of_error {c : List Cell} {e : String}
    (h : to_numeric c = Except.error e) :
    imputeColumn c = textualFillColumn c := by
  have h1 : coerceColumn c = c := by rw [coerceColumn, h]
  have h2 : isNumericDtype c = false := isNumericDtype_false_of_error h
  simp only [imputeColumn]
  rw [h1, h2, if_neg Bool.false_ne_true]

theorem imputeColumn_of_ok {c c2 : List Cell} (h : to_numeric c = Except.ok c2) :
    imputeColumn c = numericFillColumn c2 := by
  have h1 : coerceColumn c = c2 := by rw [coerceColumn, h]
  have h2 := isNumericDtype_of_ok h
  simp only [imputeColumn]
  rw [h1, h2, if_pos rfl]

theorem mem_numVals {q : ℚ} {c : List Cell} :
    q ∈ numVals c ↔ Cell.num q ∈ c := by
  rw [numVals]
  constructor
  · intro hq
    obtain ⟨x, hx, hfx⟩ := List.mem_filterMap.mp hq
    cases x with
    | num q2 => injection hfx with h2; rw [← h2]; exact hx
    | str s => cases hfx
    | na => cases hfx
  · intro h
    exact List.mem_filterMap.mpr ⟨Cell.num q, h, rfl⟩

theorem to_numeric_all_na {c : List Cell} (h : ∀ x ∈ c, x = Cell.na) :
    to_numeric c = Except.ok c := by
  induction c with
  | nil => rfl
  | cons x xs ih =>
    have hx : x = Cell.na := h x (List.mem_cons_self _ _)
    subst hx
    rw [to_numeric, ih (fun y hy => h y (List.mem_cons_of_mem _ hy))]
    rfl

theorem numVals_eq_nil_of_all_na {c : List Cell} (h : ∀ x ∈ c, x = Cell.na) :
    numVals c = [] := by
  cases hnv : numVals c with
  | nil => rfl
  | cons q l =>
    exfalso
    have hq : q ∈ numVals c := by rw [hnv]; exact List.mem_cons_self _ _
    have := h _ (mem_numVals.mp hq)
    cases this

/-- C3 (amended): after stage 4, a column that holds at least one
non-missing cell holds no missing marker at all; a column whose cells
are all missing is left completely unchanged (the median of an empty
value set is `NaN` and `fillna(NaN)` fills nothing), and no failure
occurs in either case.  As stated, the claim is false: an all-missing
column still contains missing markers after stage 4 (see the
counterexample). -/
theorem imputeColumn_no_missing (c : List Cell) :
    ((∃ x ∈ c, x ≠ Cell.na) → ∀ x ∈ imputeColumn c, x ≠ Cell.na)
    ∧ ((∀ x ∈ c, x = Cell.na) → imputeColumn c = c) := by
  constructor
  · rintro ⟨x0, hx0, hne⟩
    cases hto : to_numeric c with
    | ok c2 =>
      rw [imputeColumn_of_ok hto]
      have hc2 : c2 = c.map forceNumCell := to_numeric_ok_eq hto
      have hex : ∃ q, Cell.num q ∈ c2 := by
        cases x0 with
        | num q =>
          exact ⟨q, by rw [hc2]; exact List.mem_map.mpr ⟨_, hx0, rfl⟩⟩
        | str s =>
          have hiso : (parseRat s).isSome = true :=
            (to_numeric_isOk_iff c).mp (by rw [hto]; rfl) s hx0
          obtain ⟨q, hq⟩ := Option.isSome_iff_exists.mp hiso
          refine ⟨q, ?_⟩
          rw [hc2]
          refine List.mem_map.mpr ⟨Cell.str s, hx0, ?_⟩
          rw [forceNumCell, hq]
        | na => exact absurd rfl hne
      obtain ⟨q, hq⟩ := hex
      rw [numericFillColumn,
        if_neg (fun his => List.ne_nil_of_mem (mem_numVals.mpr hq)
          (List.isEmpty_iff.mp his))]
      exact fillNAWith_ne_na (fun habs => Cell.noConfusion habs) c2
    | error e =>
      rw [imputeColumn_of_error hto]
      have hnn : nonNACells c ≠ [] :=
        List.ne_nil_of_mem (mem_nonNACells.mpr ⟨hx0, hne⟩)
      obtain ⟨v, hv⟩ := modeFirst_isSome hnn
      have hvne : v ≠ Cell.na := (mem_nonNACells.mp (modeFirst_spec hv).1).2
      rw [textualFillColumn]
      have hval : textualFillValue c = v := by rw [textualFillValue, hv]; rfl
      rw [hval]
      exact fillNAWith_ne_na hvne c
  · intro hall
    rw [imputeColumn_of_ok (to_numeric_all_na hall), numericFillColumn,
      numVals_eq_nil_of_all_na hall]
    rfl

/-- Witness for the amended C3: a column with one real value is fully
imputed, and an all-missing column passes through unchanged. -/
theorem imputeColumn_no_missing_witness :
    imputeColumn [Cell.na] = [Cell.na] ∧ Cell.str "x" ≠ Cell.na :=
  ⟨(imputeColumn_no_missing [Cell.na]).2 (by decide),
   (imputeColumn_no_missing [Cell.str "x", Cell.na]).1
     ⟨Cell.str "x", by decide, by decide⟩ (Cell.str "x") (by decide)⟩

/-- C3 is false as stated: the table whose single column holds one
blank cell reaches stage 4 as an all-missing column, passes numeric
coercion (an all-`NaN` column converts), gets `fillna(NaN)` which fills
nothing, and so still contains the missing marker after stage 4. -/
theorem stage4_missing_counterexample :
    (stage4Table allBlankTable).cols = [[Cell.na]] ∧
    ¬ (∀ col ∈ (stage4Table allBlankTable).cols, ∀ x ∈ col, x ≠ Cell.na) := by
  decide

/-- C8: the textual (non-numeric) branch of stage 4: when numeric
coercion fails, the column's missing cells are filled (and only they
are touched: `fillNAWith` maps every missing cell to the fill value and
keeps every other cell) with `textualFillValue`, which is the column's
most frequent non-missing value whenever one exists, and the fixed
label `"Unknown"` when the column has no non-missing value. -/
theorem textual_impute_mode (c : List Cell) :
    ((to_numeric c).isOk = false →
      imputeColumn c = fillNAWith (textualFillValue c) c)
    ∧ (nonNACells c ≠ [] →
        modeFirst c = some (textualFillValue c) ∧
        textualFillValue c ∈ nonNACells c ∧
        ∀ w ∈ nonNACells c,
          (nonNACells c).count w ≤ (nonNACells c).count (textualFillValue c))
    ∧ (nonNACells c = [] → textualFillValue c = Cell.str "Unknown") := by
  refine ⟨?_, ?_, ?_⟩
  · intro h
    cases hto : to_numeric c with
    | ok c2 => rw [hto] at h; cases h
    | error e => rw [imputeColumn_of_error hto, textualFillColumn]
  · intro hne
    obtain ⟨v, hv⟩ := modeFirst_isSome hne
    have hval : textualFillValue c = v := by rw [textualFillValue, hv]; rfl
    obtain ⟨h1, h2, _⟩ := modeFirst_spec hv
    rw [hval]
    exact ⟨hv, h1, h2⟩
  · intro hnil
    rw [textualFillValue, modeFirst, hnil]
    rfl

/-- Witness for C8: a concrete textual column is mode-filled, and an
all-missing column falls back to the label `"Unknown"`. -/
theorem textual_impute_mode_witness :
    imputeColumn [Cell.str "x", Cell.na] =
      fillNAWith (textualFillValue [Cell.str "x", Cell.na])
        [Cell.str "x", Cell.na]
    ∧ textualFillValue [Cell.na] = Cell.str "Unknown" :=
  ⟨(textual_impute_mode _).1 (by decide), (textual_impute_mode _).2.2 (by decide)⟩

/-- C10: the pipeline is a pure function of the table, so two runs on
equal tables yield equal cleaned tables and equal before/after scores
(determinism holds by construction in this embedding because every
pandas operation used is deterministic, including `mode()`); the one
potentially nondeterministic-looking step, the mode used for textual
imputation, is pinned down: `modeFirst` returns a most frequent
non-missing value that is least in the sort order among the tied
candidates (the first element of the sorted `mode()` result). -/
theorem pipeline_deterministic :
    (∀ t₁ t₂ : Table, t₁ = t₂ →
      cleanTable t₁ = cleanTable t₂ ∧ scoreTable t₁ = scoreTable t₂ ∧
        scoreTable (cleanTable t₁) = scoreTable (cleanTable t₂))
    ∧ (∀ c v, modeFirst c = some v →
        v ∈ nonNACells c ∧
        (∀ w ∈ nonNACells c, (nonNACells c).count w ≤ (nonNACells c).count v) ∧
        (∀ w ∈ nonNACells c,
          (nonNACells c).count w = (nonNACells c).count v → cellLE v w = true)) := by
  refine ⟨?_, ?_⟩
  · rintro t₁ t₂ rfl
    exact ⟨rfl, rfl, rfl⟩
  · intro c v hv
    exact modeFirst_spec hv

/-- Witness for C10: on the tie `{"b", "a"}` the mode is the sorted
first value `"a"`, and it is below the other tied mode. -/
theorem pipeline_deterministic_witness :
    cellLE (Cell.str "a") (Cell.str "b") = true :=
  (pipeline_deterministic.2 [Cell.str "b", Cell.str "a"] (Cell.str "a")
      (by decide)).2.2 (Cell.str "b") (by decide) (by decide)

/-! ## Lemmas about quantiles and outlier clipping -/

theorem sortQ_sorted (l : List ℚ) : (sortQ l).Sorted (· ≤ ·) :=
  List.sorted_insertionSort _ l

theorem sortQ_length (l : List ℚ) : (sortQ l).length = l.length :=
  (List.perm_insertionSort _ l).length_eq

theorem sorted_getD_mono {s : List ℚ} (hs : s.Sorted (· ≤ ·)) {i j : ℕ}
    (hij : i ≤ j) (hj : j < s.length) : s.getD i 0 ≤ s.getD j 0 := by
  have hi : i < s.length := lt_of_le_of_lt hij hj
  have h2 := hs.rel_get_of_le
    (show (⟨i, hi⟩ : Fin s.length) ≤ ⟨j, hj⟩ from hij)
  simp only [List.get_eq_getElem] at h2
  rw [List.getD_eq_getElem s 0 hi, List.getD_eq_getElem s 0 hj]
  exact h2

theorem floor_toNat_lt_length {s : List ℚ} (hne : s ≠ []) {p : ℚ}
    (hp : p ≤ (s.length : ℚ) - 1) : Int.toNat ⌊p⌋ < s.length := by
  have hn1 : 0 < s.length := List.length_pos.mpr hne
  have h2 : ((s.length : ℚ) - 1) = (((s.length : ℤ) - 1 : ℤ) : ℚ) := by
    push_cast; ring
  have h1 : ⌊p⌋ ≤ (s.length : ℤ) - 1 := by
    have h3 := Int.floor_le_floor hp
    rw [h2, Int.floor_intCast] at h3
    exact h3
  omega

theorem floor_toNat_cast_le {p : ℚ} (h0 : 0 ≤ p) :
    ((Int.toNat ⌊p⌋ : ℕ) : ℚ) = (⌊p⌋ : ℚ) := by
  have hfl0 : 0 ≤ ⌊p⌋ := Int.floor_nonneg.mpr h0
  exact_mod_cast congrArg (fun z : ℤ => (z : ℚ)) (Int.toNat_of_nonneg hfl0)

theorem interpPos_bounds {s : List ℚ} (hs : s.Sorted (· ≤ ·)) (hne : s ≠ [])
    {p : ℚ} (h0 : 0 ≤ p) (hp : p ≤ (s.length : ℚ) - 1) :
    s.getD (Int.toNat ⌊p⌋) 0 ≤ interpPos s p ∧
      interpPos s p ≤ s.getD (min (Int.toNat ⌊p⌋ + 1) (s.length - 1)) 0 := by
  have hn1 : 0 < s.length := List.length_pos.mpr hne
  have hcast := floor_toNat_cast_le h0
  have hip : ((Int.toNat ⌊p⌋ : ℕ) : ℚ) ≤ p := by
    rw [hcast]; exact Int.floor_le p
  have hfrac1 : p - ((Int.toNat ⌊p⌋ : ℕ) : ℚ) < 1 := by
    rw [hcast]
    have := Int.lt_floor_add_one p
    linarith
  have hfrac0 : 0 ≤ p - ((Int.toNat ⌊p⌋ : ℕ) : ℚ) := sub_nonneg.mpr hip
  have hilt : Int.toNat ⌊p⌋ < s.length := floor_toNat_lt_length hne hp
  have hminlt : min (Int.toNat ⌊p⌋ + 1) (s.length - 1) < s.length := by omega
  have himin : Int.toNat ⌊p⌋ ≤ min (Int.toNat ⌊p⌋ + 1) (s.length - 1) := by omega
  have hlohi : s.getD (Int.toNat ⌊p⌋) 0 ≤
      s.getD (min (Int.toNat ⌊p⌋ + 1) (s.length - 1)) 0 :=
    sorted_getD_mono hs himin hminlt
  simp only [interpPos]
  constructor
  · nlinarith [mul_nonneg hfrac0 (sub_nonneg.mpr hlohi)]
  · have hm := mul_le_of_le_one_left (sub_nonneg.mpr hlohi) (le_of_lt hfrac1)
    linarith

theorem interpPos_mono {s : List ℚ} (hs : s.Sorted (· ≤ ·)) (hne : s ≠ [])
    {p p' : ℚ} (h0 : 0 ≤ p) (hpp : p ≤ p') (hp' : p' ≤ (s.length : ℚ) - 1) :
    interpPos s p ≤ interpPos s p' := by
  have h0' : 0 ≤ p' := le_trans h0 hpp
  have hp : p ≤ (s.length : ℚ) - 1 := le_trans hpp hp'
  by_cases heq : ⌊p⌋ = ⌊p'⌋
  · have hilt' : Int.toNat ⌊p'⌋ < s.length := floor_toNat_lt_length hne hp'
    have hminlt : min (Int.toNat ⌊p'⌋ + 1) (s.length - 1) < s.length := by omega
    have himin : Int.toNat ⌊p'⌋ ≤ min (Int.toNat ⌊p'⌋ + 1) (s.length - 1) := by
      omega
    have hlohi := sorted_getD_mono hs himin hminlt
    simp only [interpPos, heq]
    have hmul := mul_le_mul_of_nonneg_right
      (sub_le_sub_right hpp ((Int.toNat ⌊p'⌋ : ℕ) : ℚ)) (sub_nonneg.mpr hlohi)
    linarith
  · have hlt : ⌊p⌋ < ⌊p'⌋ := lt_of_le_of_ne (Int.floor_le_floor hpp) heq
    have hfl0 : 0 ≤ ⌊p⌋ := Int.floor_nonneg.mpr h0
    have hilt' : Int.toNat ⌊p'⌋ < s.length := floor_toNat_lt_length hne hp'
    calc interpPos s p
        ≤ s.getD (min (Int.toNat ⌊p⌋ + 1) (s.length - 1)) 0 :=
          (interpPos_bounds hs hne h0 hp).2
      _ ≤ s.getD (Int.toNat ⌊p'⌋) 0 :=
          sorted_getD_mono hs (by omega) hilt'
      _ ≤ interpPos s p' := (interpPos_bounds hs hne h0' hp').1

theorem quantileQ_mono {vals : List ℚ} (hvne : vals ≠ []) {q q' : ℚ}
    (h0 : 0 ≤ q) (hqq : q ≤ q') (h1 : q' ≤ 1) :
    quantileQ vals q ≤ quantileQ vals q' := by
  have hsne : sortQ vals ≠ [] := by
    intro h
    apply hvne
    have hl := sortQ_length vals
    rw [h] at hl
    exact List.length_eq_zero.mp hl.symm
  have hn1 : (1 : ℚ) ≤ ((sortQ vals).length : ℚ) := by
    have := List.length_pos.mpr hsne
    exact_mod_cast this
  have hnn : (0 : ℚ) ≤ ((sortQ vals).length : ℚ) - 1 := by linarith
  simp only [quantileQ]
  rw [if_neg (fun h => hsne (List.isEmpty_iff.mp h)),
    if_neg (fun h => hsne (List.isEmpty_iff.mp h))]
  apply interpPos_mono (sortQ_sorted vals) hsne
  · exact mul_nonneg h0 hnn
  · exact mul_le_mul_of_nonneg_right hqq hnn
  · exact mul_le_of_le_one_left hnn h1

theorem median_between {c : List Cell} (h : numVals c ≠ []) :
    lowerOf c ≤ medianOf c ∧ medianOf c ≤ upperOf c := by
  have h1 : q1Of c ≤ medianOf c :=
    quantileQ_mono h (by norm_num) (by norm_num) (by norm_num)
  have h2 : medianOf c ≤ q3Of c :=
    quantileQ_mono h (by norm_num) (by norm_num) (by norm_num)
  have h3 : q1Of c ≤ q3Of c := le_trans h1 h2
  rw [lowerOf, upperOf]
  constructor <;> linarith

/-- C5: outlier clipping: a numeric value strictly below `lower` or
strictly above `upper` is replaced by the column's median computed from
the column as it stands after imputation (the bounds and the median are
all computed from `clipColumn`'s input, i.e. post-imputation), and
afterwards every numeric value of the column lies within
`[lower, upper]` — the median itself lies between `Q1` and `Q3`, hence
inside the clipping interval.  Missing and text cells are untouched
(`NaN` compares false in `np.where`). -/
theorem clip_within_bounds (c : List Cell) :
    (∀ i q, c.get? i = some (Cell.num q) →
      (q < lowerOf c ∨ q > upperOf c) →
      (clipColumn c).get? i = some (Cell.num (medianOf c)))
    ∧ (∀ x ∈ clipColumn c, ∀ q, x = Cell.num q →
        lowerOf c ≤ q ∧ q ≤ upperOf c) := by
  constructor
  · intro i q hget hout
    rw [clipColumn, List.get?_map, hget]
    show some (if q < lowerOf c ∨ q > upperOf c then Cell.num (medianOf c)
      else Cell.num q) = some (Cell.num (medianOf c))
    rw [if_pos hout]
  · intro x hx q hxq
    subst hxq
    rw [clipColumn] at hx
    obtain ⟨y, hy, hfy⟩ := List.mem_map.mp hx
    cases y with
    | num v =>
      have hfy2 : (if v < lowerOf c ∨ v > upperOf c then Cell.num (medianOf c)
          else Cell.num v) = Cell.num q := hfy
      have hnv : numVals c ≠ [] := List.ne_nil_of_mem (mem_numVals.mpr hy)
      obtain ⟨hl, hu⟩ := median_between hnv
      by_cases hcond : v < lowerOf c ∨ v > upperOf c
      · rw [if_pos hcond] at hfy2
        injection hfy2 with h2
        rw [← h2]
        exact ⟨hl, hu⟩
      · rw [if_neg hcond] at hfy2
        injection hfy2 with h2
        push_neg at hcond
        rw [← h2]
        exact ⟨hcond.1, hcond.2⟩
    | str s =>
      have hfy2 : Cell.str s = Cell.num q := hfy
      cases hfy2
    | na =>
      have hfy2 : Cell.na = Cell.num q := hfy
      cases hfy2

/-- Witness for C5: in the column `[1, 2, 3, 4, 100]` the value `100`
lies above `upper = 7` and is replaced by the median `3`. -/
theorem clip_within_bounds_witness :
    (clipColumn outlierColumn).get? 4 = some (Cell.num 3) :=
  ((clip_within_bounds outlierColumn).1 4 100 (by decide) (by decide)).trans
    (by decide)

/-- C2 is false as stated: on a table with a column but no rows,
`total_cells = 0` and the score is the `NaN` of `0 / 0` (modelled
`none`), not `100`. -/
theorem score_zero_cells_counterexample :
    scoreTable emptyColTable = none ∧ scoreTable emptyColTable ≠ some 100 := by
  decide

/-- C2 (amended): the score never raises, but it is only the spec's
formula when there is at least one cell: with `total_cells = 0` the
code divides `0 / 0` and the score is `NaN` (modelled `none`) rather
than `100`; otherwise it equals
`100 * (1 - missing_cells / total_cells)`. -/
theorem score_spec (t : Table) :
    (totalCells t = 0 → scoreTable t = none)
    ∧ (totalCells t ≠ 0 →
        scoreTable t =
          some (100 * (1 - (missingCells t : ℚ) / (totalCells t : ℚ)))) := by
  constructor
  · intro h
    rw [scoreTable, divNan, if_pos (by exact_mod_cast h)]
    rfl
  · intro h
    rw [scoreTable, divNan, if_neg (fun hc => h (by exact_mod_cast hc))]
    rfl

/-- Witness for the amended C2 on a table with four cells, one of them
missing: the score is `100 * (1 - 1/4) = 75`. -/
theorem score_spec_witness :
    scoreTable ⟨["A"], [[Cell.na, Cell.num 1, Cell.num 2, Cell.num 3]]⟩ =
      some 75 :=
  ((score_spec ⟨["A"], [[Cell.na, Cell.num 1, Cell.num 2, Cell.num 3]]⟩).2
      (by decide)).trans (by decide)

/-- C4 is false as stated: the before-cleaning score of the worked
example is computed on the raw table (app.py lines 45-47), where the
blank `""` is an ordinary string and not a missing value — blanks only
become missing at stage 3 (line 83), after the score was taken — so the
score is `100`, not the spec's `75`. -/
theorem example_before_quality_counterexample :
    scoreTable exampleTable ≠ some 75 ∧ scoreTable exampleTable = some 100 := by
  decide

/-- C4 (amended): on the worked example the pipeline trims the header
`" Age "`, drops the duplicate second `("Alice", "30")` row, coerces
the `Age` column to numeric with the blank imputed by the median `30`,
and yields 2 rows and 2 columns scoring `100` after cleaning; the
before-cleaning score, however, is `100` (not `75`), because it is
computed before blank-normalization. -/
theorem example_pipeline_run :
    cleanTable exampleTable =
      ⟨["Name", "Age"],
       [[Cell.str "Alice", Cell.str "Bob"], [Cell.num 30, Cell.num 30]]⟩
    ∧ numRows (cleanTable exampleTable) = 2
    ∧ numCols (cleanTable exampleTable) = 2
    ∧ scoreTable exampleTable = some 100
    ∧ scoreTable (cleanTable exampleTable) = some 100 := by
  decide

/-- C1 is false as stated: when the first narrative call fails, the
uncaught exception aborts the session before cleaning, so no cleaned
CSV is offered for download on the worked example. -/
theorem narrative_failure_counterexample :
    ¬ csvProduced exampleTable (Except.error "boom") (Except.ok "report") := by
  rintro ⟨out, hout⟩
  cases hout

/-- C1 (amended): no `try/except` guards the two
`model.generate_content` calls (app.py lines 70 and 139), so a failing
narrative call propagates and aborts every later step: the cleaned-CSV
download artifact is produced exactly when both narrative calls
succeed, and when they do it carries the cleaned table together with
the before/after scores. -/
theorem narrative_failure_aborts_session (t : Table)
    (gen1 gen2 : Except String String) :
    (csvProduced t gen1 gen2 ↔ gen1.isOk = true ∧ gen2.isOk = true)
    ∧ (∀ out, runSession t gen1 gen2 = Except.ok out →
        out.csvArtifact = cleanTable t ∧ out.cleaned = cleanTable t ∧
        out.beforeQ = scoreTable t ∧ out.afterQ = scoreTable (cleanTable t)) := by
  cases gen1 with
  | error e1 =>
    refine ⟨iff_of_false ?_ (by rintro ⟨h1, _⟩; cases h1), ?_⟩
    · rintro ⟨out, hout⟩
      cases hout
    · intro out hout
      cases hout
  | ok a1 =>
    cases gen2 with
    | error e2 =>
      refine ⟨iff_of_false ?_ (by rintro ⟨_, h2⟩; cases h2), ?_⟩
      · rintro ⟨out, hout⟩
        cases hout
      · intro out hout
        cases hout
    | ok a2 =>
      refine ⟨iff_of_true ⟨_, rfl⟩ ⟨rfl, rfl⟩, ?_⟩
      · intro out hout
        have h2 : out = ⟨a1, cleanTable t, scoreTable t,
            scoreTable (cleanTable t), a2, cleanTable t⟩ := by
          injection hout with h3
          exact h3.symm
        rw [h2]
        exact ⟨rfl, rfl, rfl, rfl⟩

/-- Witness for the amended C1: with both narrative calls succeeding,
the session does produce the cleaned-CSV artifact. -/
theorem narrative_failure_aborts_session_witness :
    csvProduced exampleTable (Except.ok "analysis") (Except.ok "report") :=
  (narrative_failure_aborts_session exampleTable
      (Except.ok "analysis") (Except.ok "report")).1.mpr ⟨rfl, rfl⟩
